import Mathlib

/-!
Verification of the Gaming Optimizer core against its specification.

The Rust sources under `src/` are shallowly embedded: pure functions become
Lean functions, the operating-system state (running processes, the file
system, decoded images, wall-clock instants) is passed explicitly, and
fallible code returns `Except`/`Option`.  Strings are Lean `String`s; the
Rust byte-level operations used by the code only ever act on ASCII
substrings (".exe", "png", lower-casing), where byte positions and
character positions coincide, so character-level models are exact.
-/

namespace GamingOptimizer

/-! ## String helpers (models of the Rust `str` methods used by the code) -/

/-- Model of Rust `str::to_lowercase` (the code only feeds it ASCII names,
where `Char.toLower` agrees with Unicode lowercasing). -/
def to_lowercase (s : String) : String := ⟨s.data.map Char.toLower⟩

/-- Model of Rust `str::ends_with`. -/
def string_ends_with (s suf : String) : Bool :=
  decide (suf.data.length ≤ s.data.length) &&
    (s.data.drop (s.data.length - suf.data.length) == suf.data)

/-- Model of the Rust byte slice `&lower[..lower.len() - n]` for an ASCII
suffix of `n` bytes (= `n` characters). -/
def string_drop_right (s : String) (n : Nat) : String :=
  ⟨s.data.take (s.data.length - n)⟩

/-! ## Process guard (`src/process.rs`) -/

/-- A running process as the kill loop sees it: its pid, its name, and
whether the OS call `process.kill()` would return `true` for it. -/
structure Proc where
  pid : Nat
  name : String
  killOk : Bool
deriving DecidableEq, Repr

/-- Report of process killing operation (`KillReport` in `process.rs`). -/
structure KillReport where
  killed : List String
  failed : List String
  not_found : List String
  blocklist_skipped : List String
deriving DecidableEq, Repr

/-- `KillReport::new()`. -/
def KillReport.new : KillReport := ⟨[], [], [], []⟩

/-- The hard-coded `PROTECTED_PROCESSES` list from `process.rs`. -/
def PROTECTED_PROCESSES : List String :=
  ["csrss.exe", "dwm.exe", "explorer.exe", "lsass.exe", "services.exe",
   "smss.exe", "system", "wininit.exe", "winlogon.exe", "svchost.exe"]

/-- `is_protected`: case-insensitive membership in the protected list. -/
def is_protected (process_name : String) : Bool :=
  let name_lower := to_lowercase process_name
  PROTECTED_PROCESSES.any (fun p => to_lowercase p == name_lower)

/-- `normalize_process_name`: lower-case, strip one trailing ".exe". -/
def normalize_process_name (name : String) : String :=
  let lower := to_lowercase name
  if string_ends_with lower ".exe" then string_drop_right lower 4 else lower

/-- The match condition of the inner loop of `kill_processes`: the running
process matches the target either by normalized name or by raw
case-insensitive name. -/
def matches_target (target_name : String) (p : Proc) : Bool :=
  normalize_process_name p.name == normalize_process_name target_name ||
    to_lowercase p.name == to_lowercase target_name

/-- Outcome of one run of `kill_processes`: the report, together with the
list of `(target name, pid)` pairs on which `process.kill()` was invoked
(in invocation order).  The attempt list makes "no termination was
attempted" a provable statement. -/
structure KillRun where
  report : KillReport
  kill_attempts : List (String × Nat)
deriving DecidableEq, Repr

/-- The empty run. -/
def KillRun.empty : KillRun := ⟨KillReport.new, []⟩

/-- Field-wise concatenation of two runs; the loop of `kill_processes`
pushes the contribution of each target in order, which is exactly
concatenation of the per-target contributions. -/
def KillRun.append (a b : KillRun) : KillRun :=
  ⟨⟨a.report.killed ++ b.report.killed,
    a.report.failed ++ b.report.failed,
    a.report.not_found ++ b.report.not_found,
    a.report.blocklist_skipped ++ b.report.blocklist_skipped⟩,
   a.kill_attempts ++ b.kill_attempts⟩

/-- The condition under which `kill_processes` routes a target into the
blocklist: `is_protected(&target_normalized) || is_protected(target_name)`
in the source. -/
def protected_target (target_name : String) : Bool :=
  is_protected (normalize_process_name target_name) || is_protected target_name

/-- The `// Record result for this process name` block of `kill_processes`,
as a function of the three flags accumulated by the inner loop. -/
def target_report (found_any killed_any failed_any : Bool)
    (target_name : String) : KillReport :=
  if killed_any && !failed_any then
    ⟨[target_name], [], [], []⟩
  else if killed_any && failed_any then
    ⟨[target_name ++ " (partial)"], [target_name ++ " (partial)"], [], []⟩
  else if failed_any then
    ⟨[], [target_name], [], []⟩
  else if !found_any then
    ⟨[], [], [target_name], []⟩
  else
    ⟨[], [], [], []⟩

/-- The body of the `for target_name in process_names` loop of
`kill_processes`, for one target, over the running-process snapshot
`sys`: protected names are skipped; otherwise the inner loop visits every
matching process, calls `kill()` on each (the attempt list), sets
`found_any`/`killed_any`/`failed_any`, and the target is recorded
according to the flags. -/
def target_outcome (sys : List Proc) (target_name : String) : KillRun :=
  if protected_target target_name then
    ⟨⟨[], [], [], [target_name]⟩, []⟩
  else
    let ms := sys.filter (matches_target target_name)
    ⟨target_report (!ms.isEmpty) (ms.any (fun p => p.killOk))
        (ms.any (fun p => !p.killOk)) target_name,
     ms.map (fun p => (target_name, p.pid))⟩

/-- `kill_processes` over the process snapshot `sys`: the loop processes
every target in order, pushing each target's contributions onto the
report vectors, i.e. concatenating the per-target contributions. -/
def kill_processes (sys : List Proc) : List String → KillRun
  | [] => KillRun.empty
  | t :: ns => (target_outcome sys t).append (kill_processes sys ns)

/-! ## Profile store (`src/profile.rs`)

The file system is passed explicitly: for `validate` it is the list of
existing file paths; for `save_profiles`/`load_profiles` it is an
association from paths to the JSON document stored there (the
string-level serde round trip is abstracted at the JSON-value level). -/

/-- The `Profile` struct. `name.len()` in the Rust code is the UTF-8 byte
length of the Lean `String`. -/
structure Profile where
  name : String
  processes_to_kill : List String
  crosshair_image_path : Option String
  crosshair_x_offset : Int
  crosshair_y_offset : Int
  overlay_enabled : Bool
deriving DecidableEq, Repr

/-- `create_profile`: a new profile with default values. -/
def create_profile (name : String) : Profile :=
  ⟨name, [], none, 0, 0, true⟩

/-- The final path component (after the last `/`), for ordinary relative
or absolute paths as the GUI produces them. -/
def file_name_chars (path : String) : List Char :=
  (path.data.reverse.takeWhile (fun c => c ≠ '/')).reverse

/-- Model of Rust `Path::extension` composed with `to_str`, for ordinary
file names: the part after the last `.` of the final component, none when
the component has no `.` or starts with its only `.`. -/
def path_extension (path : String) : Option String :=
  let f := file_name_chars path
  let ext := f.reverse.takeWhile (fun c => c ≠ '.')
  if ext.length = f.length then none
  else if f.length - ext.length - 1 = 0 then none
  else some ⟨ext.reverse⟩

/-- The two offset range checks at the end of `Profile::validate`. -/
def check_offsets (p : Profile) : Except String Unit :=
  if p.crosshair_x_offset < -500 ∨ p.crosshair_x_offset > 500 then
    .error "X offset must be between -500 and 500 pixels"
  else if p.crosshair_y_offset < -500 ∨ p.crosshair_y_offset > 500 then
    .error "Y offset must be between -500 and 500 pixels"
  else
    .ok ()

/-- `Profile::validate` over the list `fs` of file paths that exist on
disk: name byte-length check, then (if an image path is set) existence
and `.png`-extension checks, then the offset checks. -/
def validate (fs : List String) (p : Profile) : Except String Unit :=
  if p.name.utf8ByteSize = 0 ∨ p.name.utf8ByteSize > 50 then
    .error "Profile name must be between 1 and 50 characters"
  else
    match p.crosshair_image_path with
    | some path =>
      if fs.contains path = false then
        .error ("Crosshair image file does not exist: " ++ path)
      else if path_extension path ≠ some "png" then
        .error ("Crosshair image must be a PNG file: " ++ path)
      else
        check_offsets p
    | none => check_offsets p

/-- Whether a `Result` is `Ok`. -/
def except_ok (e : Except String Unit) : Bool :=
  match e with
  | .ok _ => true
  | .error _ => false

/-- The indexed loop of `is_profile_name_unique`: `k` is the index of the
head of the remaining list. -/
def unique_loop (name_lower : String) (exclude_index : Option Nat) :
    List Profile → Nat → Bool
  | [], _ => true
  | p :: ps, k =>
    if exclude_index == some k then
      unique_loop name_lower exclude_index ps (k + 1)
    else if to_lowercase p.name == name_lower then
      false
    else
      unique_loop name_lower exclude_index ps (k + 1)

/-- `is_profile_name_unique`: case-insensitive, skipping `exclude_index`. -/
def is_profile_name_unique (profiles : List Profile) (name : String)
    (exclude_index : Option Nat) : Bool :=
  unique_loop (to_lowercase name) exclude_index profiles 0

/-- JSON documents, at the value level (the pretty-printed text and its
re-parsing are serde_json's string round trip, abstracted here). -/
inductive Json where
  | null
  | bool (b : Bool)
  | num (n : Int)
  | str (s : String)
  | arr (elems : List Json)
  | obj (fields : List (String × Json))

/-- The derived `Serialize` for `Profile`: a JSON object with one member
per field, in declaration order; `None` serializes as `null`. -/
def encode_profile (p : Profile) : Json :=
  .obj [("name", .str p.name),
        ("processes_to_kill", .arr (p.processes_to_kill.map Json.str)),
        ("crosshair_image_path",
          match p.crosshair_image_path with
          | none => .null
          | some s => .str s),
        ("crosshair_x_offset", .num p.crosshair_x_offset),
        ("crosshair_y_offset", .num p.crosshair_y_offset),
        ("overlay_enabled", .bool p.overlay_enabled)]

/-- Serialization of `&[Profile]`: a JSON array. -/
def encode_profiles (ps : List Profile) : Json :=
  .arr (ps.map encode_profile)

/-- Object member lookup. -/
def get_field : Json → String → Option Json
  | .obj fields, key => fields.lookup key
  | _, _ => none

/-- Deserializing a JSON string. -/
def as_str : Json → Option String
  | .str s => some s
  | _ => none

/-- Deserializing a sequence of strings, element by element. -/
def str_list : List Json → Option (List String)
  | [] => some []
  | j :: js =>
    match as_str j with
    | some s =>
      match str_list js with
      | some ss => some (s :: ss)
      | none => none
    | none => none

/-- Deserializing `Vec<String>`. -/
def as_str_list : Json → Option (List String)
  | .arr xs => str_list xs
  | _ => none

/-- Deserializing `i32`. -/
def as_int : Json → Option Int
  | .num n => some n
  | _ => none

/-- Deserializing `bool`. -/
def as_bool : Json → Option Bool
  | .bool b => some b
  | _ => none

/-- Deserializing an `Option<String>` field: serde's derived code accepts
`null` (and a missing member) as `None`. -/
def decode_opt_str : Option Json → Option (Option String)
  | none => some none
  | some .null => some none
  | some (.str s) => some (some s)
  | some _ => none

/-- The derived `Deserialize` for `Profile`. -/
def decode_profile (j : Json) : Option Profile := do
  let name ← (get_field j "name").bind as_str
  let ptk ← (get_field j "processes_to_kill").bind as_str_list
  let cip ← decode_opt_str (get_field j "crosshair_image_path")
  let cx ← (get_field j "crosshair_x_offset").bind as_int
  let cy ← (get_field j "crosshair_y_offset").bind as_int
  let ov ← (get_field j "overlay_enabled").bind as_bool
  pure ⟨name, ptk, cip, cx, cy, ov⟩

/-- Deserializing `Vec<Profile>`, element by element. -/
def profile_list : List Json → Option (List Profile)
  | [] => some []
  | j :: js =>
    match decode_profile j with
    | some p =>
      match profile_list js with
      | some ps => some (p :: ps)
      | none => none
    | none => none

/-- Deserializing the whole `profiles.json` document. -/
def decode_profiles : Json → Option (List Profile)
  | .arr xs => profile_list xs
  | _ => none

/-- A data directory's disk state: stored JSON documents by path; a write
shadows any previous document at the same path. -/
def fs_write (fs : List (String × Json)) (path : String) (j : Json) :
    List (String × Json) :=
  (path, j) :: fs

/-- Reading a stored document; `none` when the file does not exist. -/
def fs_read (fs : List (String × Json)) (path : String) : Option Json :=
  fs.lookup path

/-- `save_profiles`: serialize the list and overwrite
`<data_dir>/profiles.json` (directory creation has no observable effect
on the stored-document map). -/
def save_profiles (profiles : List Profile) (data_dir : String)
    (fs : List (String × Json)) : List (String × Json) :=
  fs_write fs (data_dir ++ "/profiles.json") (encode_profiles profiles)

/-- `load_profiles`: empty list when the file is absent, parse error
otherwise surfaced as `Err`. -/
def load_profiles (fs : List (String × Json)) (data_dir : String) :
    Except String (List Profile) :=
  match fs_read fs (data_dir ++ "/profiles.json") with
  | none => .ok []
  | some j =>
    match decode_profiles j with
    | some ps => .ok ps
    | none => .error "Failed to parse profiles.json"

/-- A 50-character name whose UTF-8 encoding is 100 bytes. -/
def fifty_acute_name : String := ⟨List.replicate 50 'é'⟩

/-! ## Overlay compositor (`src/overlay.rs`)

A decoded image is its dimensions plus its row-major RGBA pixels; the
softbuffer surface is a buffer of `width * height` u32 pixels, modelled
as a map from buffer index to pixel value. -/

/-- A decoded input image (the output of `image::open` + `to_rgba8`). -/
structure Image where
  width : Nat
  height : Nat
  pixels : List (Nat × Nat × Nat × Nat)

/-- The RGBA-to-ARGB conversion of `load_crosshair_image`:
`(a << 24) | (r << 16) | (g << 8) | b`. -/
def argb_of_rgba : Nat × Nat × Nat × Nat → Nat
  | (r, g, b, a) => (a <<< 24) ||| (r <<< 16) ||| (g <<< 8) ||| b

/-- `OverlayWindow::load_crosshair_image` after decoding: the 100x100
dimension check, then the ARGB conversion.  On failure the error message
carries the actual dimensions and no pixel data is returned. -/
def load_crosshair_image (img : Image) :
    Except String (List Nat × Nat × Nat) :=
  if img.width ≠ 100 ∨ img.height ≠ 100 then
    .error ("Crosshair image must be exactly 100x100 pixels (got " ++
      toString img.width ++ "x" ++ toString img.height ++ ")")
  else
    .ok (img.pixels.map argb_of_rgba, img.width, img.height)

/-- The crosshair placement abscissa of `render`:
`(width as i32) / 2 - (crosshair_width as i32) / 2 + x_offset`
(truncating division; both operands are non-negative, so it equals
natural division). -/
def crosshair_x (width cw : Nat) (x_offset : Int) : Int :=
  ((width / 2 : Nat) : Int) - ((cw / 2 : Nat) : Int) + x_offset

/-- The crosshair placement ordinate of `render`. -/
def crosshair_y (height ch : Nat) (y_offset : Int) : Int :=
  ((height / 2 : Nat) : Int) - ((ch / 2 : Nat) : Int) + y_offset

/-- The destination buffer index a source pixel `(x, y)` is written to,
or `none` when the code's bounds check
`dst_x >= 0 && dst_x < width && dst_y >= 0 && dst_y < height` skips it. -/
def blit_dest (cx cy : Int) (width height : Nat) (x y : Nat) : Option Nat :=
  let dst_x := cx + x
  let dst_y := cy + y
  if 0 ≤ dst_x ∧ dst_x < (width : Int) ∧ 0 ≤ dst_y ∧ dst_y < (height : Int) then
    some (dst_y.toNat * width + dst_x.toNat)
  else
    none

/-- One iteration of the blit loop body: write source pixel `(x, y)`
unblended into the buffer, if in bounds (including the final
`dst_idx < buffer.len() && src_idx < crosshair_data.len()` check). -/
def blit_pixel (cd : List Nat) (cw : Nat) (cx cy : Int)
    (width height : Nat) (buf : Nat → Nat) (x y : Nat) : Nat → Nat :=
  match blit_dest cx cy width height x y with
  | some dst_idx =>
    if dst_idx < width * height ∧ y * cw + x < cd.length then
      Function.update buf dst_idx (cd.getD (y * cw + x) 0)
    else buf
  | none => buf

/-- The iteration order of the nested `for y ... for x ...` loops. -/
def blit_pairs (cw ch : Nat) : List (Nat × Nat) :=
  (List.range ch).flatMap (fun y => (List.range cw).map (fun x => (x, y)))

/-- `OverlayWindow::render`: nothing is presented for a zero-sized
surface; otherwise the buffer is cleared to fully transparent
`0x00000000` and the crosshair is blitted at the centered-plus-offset
placement. -/
def render (width height : Nat) (cd : List Nat) (cw ch : Nat)
    (xo yo : Int) : Option (Nat → Nat) :=
  if width = 0 ∨ height = 0 then none
  else
    some ((blit_pairs cw ch).foldl
      (fun buf p =>
        blit_pixel cd cw (crosshair_x width cw xo) (crosshair_y height ch yo)
          width height buf p.1 p.2)
      (fun _ => 0))

/-! ## Tray click state machine (`src/tray_flyout.rs`, tray-only loop)

The loop keeps `last_click_time : Option<Instant>` and
`pending_single_click : bool`, and owns the flyout window
(`flyout.is_some()` is modelled by `flyout_open`).  Instants are
milliseconds on a monotone clock; `duration_since` is truncated
subtraction.  A `clickUp` event is a left-button-up tray event at the
given instant; a `tick` is one iteration of the message loop checking
the single-click timer at the given instant. -/

/-- The mutable state consulted by the click logic. -/
structure TrayState where
  last_click_time : Option Nat
  pending_single_click : Bool
  flyout_open : Bool
deriving DecidableEq, Repr

/-- Observable actions of the loop: sending `TrayToGui::OpenSettings`,
showing the flyout, hiding the flyout. -/
inductive TrayAction where
  | openSettings
  | showFlyout
  | hideFlyout
deriving DecidableEq, Repr

/-- Inputs to the click logic. -/
inductive TrayEvent where
  | clickUp (now : Nat)
  | tick (now : Nat)
deriving DecidableEq, Repr

/-- One step of the loop: the left-click-up handler (double-click if a
previous click lies less than 500 ms back, else arm the single-click
timer), and the timer check (toggle the flyout once 500 ms have passed
with the single click still pending). -/
def tray_step (s : TrayState) : TrayEvent → TrayState × List TrayAction
  | .clickUp now =>
    match s.last_click_time with
    | some last_time =>
      if now - last_time < 500 then
        ({ s with pending_single_click := false, last_click_time := none },
         [.openSettings])
      else
        ({ s with last_click_time := some now, pending_single_click := true },
         [])
    | none =>
      ({ s with last_click_time := some now, pending_single_click := true },
       [])
  | .tick now =>
    if s.pending_single_click then
      match s.last_click_time with
      | some last_time =>
        if 500 ≤ now - last_time then
          if s.flyout_open then
            ({ s with pending_single_click := false, flyout_open := false },
             [.hideFlyout])
          else
            ({ s with pending_single_click := false, flyout_open := true },
             [.showFlyout])
        else (s, [])
      | none => (s, [])
    else (s, [])

/-- Running the loop over a sequence of events, collecting the emitted
actions in order. -/
def tray_run (s : TrayState) : List TrayEvent → TrayState × List TrayAction
  | [] => (s, [])
  | e :: es =>
    match tray_step s e with
    | (s1, a1) =>
      match tray_run s1 es with
      | (s2, a2) => (s2, a1 ++ a2)

lemma kill_processes_cons (sys : List Proc) (t : String) (ns : List String) :
    kill_processes sys (t :: ns) =
      (target_outcome sys t).append (kill_processes sys ns) := rfl

lemma target_outcome_of_protected (sys : List Proc) (u : String)
    (h : protected_target u = true) :
    target_outcome sys u = ⟨⟨[], [], [], [u]⟩, []⟩ := by
  simp [target_outcome, h]

lemma target_outcome_attempts (sys : List Proc) (u : String) :
    (target_outcome sys u).kill_attempts =
      if protected_target u = true then []
      else (sys.filter (matches_target u)).map (fun p => (u, p.pid)) := by
  by_cases hp : protected_target u = true <;> simp [target_outcome, hp]

lemma mem_attempts_not_protected (sys : List Proc) (ns : List String)
    (t : String) (pid : Nat)
    (h : (t, pid) ∈ (kill_processes sys ns).kill_attempts) :
    protected_target t = false := by
  induction ns with
  | nil => simp [kill_processes, KillRun.empty, KillReport.new] at h
  | cons u ns ih =>
    rw [kill_processes_cons] at h
    rcases List.mem_append.mp h with h1 | h2
    · rw [target_outcome_attempts] at h1
      by_cases hp : protected_target u = true
      · simp [hp] at h1
      · simp only [hp, if_false] at h1
        rcases List.mem_map.mp h1 with ⟨p, _, hpq⟩
        cases hpq
        simpa using hp
    · exact ih h2

lemma mem_blocklist_of_protected (sys : List Proc) (ns : List String)
    (t : String) (ht : t ∈ ns) (hp : protected_target t = true) :
    t ∈ (kill_processes sys ns).report.blocklist_skipped := by
  induction ns with
  | nil => cases ht
  | cons u ns ih =>
    rw [kill_processes_cons]
    rcases List.mem_cons.mp ht with rfl | hm
    · rw [target_outcome_of_protected sys t hp]
      simp [KillRun.append]
    · rcases ih hm with hmem
      simp only [KillRun.append, List.mem_append]
      exact Or.inr hmem

/-- C1. Whenever `"csrss.exe"` is among the targets of `kill_processes`,
the report lists it under `blocklist_skipped`, and no kill is ever
attempted on behalf of that target (no attempt pair with first component
`"csrss.exe"` occurs), no matter which processes are running. -/
theorem csrss_always_blocklisted_never_attempted
    (sys : List Proc) (names : List String) (h : "csrss.exe" ∈ names) :
    "csrss.exe" ∈ (kill_processes sys names).report.blocklist_skipped ∧
      ∀ pid : Nat, ("csrss.exe", pid) ∉ (kill_processes sys names).kill_attempts := by
  refine ⟨mem_blocklist_of_protected sys names _ h (by decide), ?_⟩
  intro pid hmem
  have hfalse := mem_attempts_not_protected sys names _ pid hmem
  have htrue : protected_target "csrss.exe" = true := by decide
  rw [htrue] at hfalse
  cases hfalse

/-- Witness for C1 at the concrete call `kill_processes` on a system
running `csrss.exe` with target list `["csrss.exe"]`. -/
theorem csrss_always_blocklisted_never_attempted_witness :
    "csrss.exe" ∈
        (kill_processes [⟨1, "csrss.exe", true⟩] ["csrss.exe"]).report.blocklist_skipped ∧
      ("csrss.exe", 1) ∉
        (kill_processes [⟨1, "csrss.exe", true⟩] ["csrss.exe"]).kill_attempts := by
  have h := csrss_always_blocklisted_never_attempted
    [⟨1, "csrss.exe", true⟩] ["csrss.exe"] (by decide)
  exact ⟨h.1, h.2 1⟩

lemma KillRun.append_empty (a : KillRun) : a.append KillRun.empty = a := by
  cases a with
  | mk r att => cases r; simp [KillRun.append, KillRun.empty, KillReport.new]

lemma kill_processes_singleton (sys : List Proc) (t : String) :
    kill_processes sys [t] = target_outcome sys t := by
  rw [kill_processes_cons]
  exact KillRun.append_empty _

lemma target_outcome_of_unprotected (sys : List Proc) (t : String)
    (h : protected_target t = false) :
    target_outcome sys t =
      ⟨target_report (!(sys.filter (matches_target t)).isEmpty)
          ((sys.filter (matches_target t)).any (fun p => p.killOk))
          ((sys.filter (matches_target t)).any (fun p => !p.killOk)) t,
       (sys.filter (matches_target t)).map (fun p => (t, p.pid))⟩ := by
  simp [target_outcome, h]

lemma target_appears (sys : List Proc) (t : String)
    (h : protected_target t = false) :
    t ∈ (target_outcome sys t).report.killed ∨
      (t ++ " (partial)") ∈ (target_outcome sys t).report.killed ∨
      t ∈ (target_outcome sys t).report.failed ∨
      t ∈ (target_outcome sys t).report.not_found := by
  rw [target_outcome_of_unprotected sys t h]
  by_cases hk : ((sys.filter (matches_target t)).any (fun p => p.killOk)) = true <;>
    by_cases hf : ((sys.filter (matches_target t)).any (fun p => !p.killOk)) = true
  · simp [target_report, hk, hf]
  · simp only [Bool.not_eq_true] at hf
    simp [target_report, hk, hf]
  · simp only [Bool.not_eq_true] at hk
    simp [target_report, hk, hf]
  · cases hms : sys.filter (matches_target t) with
    | nil => simp [target_report, hms]
    | cons p ps =>
      exfalso
      rw [hms] at hk hf
      simp only [List.any_cons, Bool.or_eq_true, not_or, Bool.not_eq_true] at hk hf
      rw [hk.1] at hf
      simp at hf

lemma appears_in_report (sys : List Proc) (ns : List String) (t : String)
    (h : protected_target t = false) (ht : t ∈ ns) :
    t ∈ (kill_processes sys ns).report.killed ∨
      (t ++ " (partial)") ∈ (kill_processes sys ns).report.killed ∨
      t ∈ (kill_processes sys ns).report.failed ∨
      t ∈ (kill_processes sys ns).report.not_found := by
  induction ns with
  | nil => cases ht
  | cons u ns ih =>
    rw [kill_processes_cons]
    simp only [KillRun.append, List.mem_append]
    rcases List.mem_cons.mp ht with rfl | hm
    · rcases target_appears sys t h with h1 | h1 | h1 | h1
      · exact Or.inl (Or.inl h1)
      · exact Or.inr (Or.inl (Or.inl h1))
      · exact Or.inr (Or.inr (Or.inl (Or.inl h1)))
      · exact Or.inr (Or.inr (Or.inr (Or.inl h1)))
    · rcases ih hm with h1 | h1 | h1 | h1
      · exact Or.inl (Or.inr h1)
      · exact Or.inr (Or.inl (Or.inr h1))
      · exact Or.inr (Or.inr (Or.inl (Or.inr h1)))
      · exact Or.inr (Or.inr (Or.inr (Or.inr h1)))

/-- C3. For a non-protected target: zero matching running processes put it
in `not_found`; all kills succeeding puts it in `killed`; all failing puts
it in `failed`; a mix puts it in both, tagged " (partial)".  Every
non-protected target of a call therefore appears somewhere in the report,
and processing one target never stops the processing of the remaining
targets (the run over `t :: ns` is the run over `t` followed by the full
run over `ns`, whatever happened for `t`). -/
theorem kill_report_covers_every_target (sys : List Proc) (t : String)
    (h : protected_target t = false) :
    (sys.filter (matches_target t) = [] →
        (kill_processes sys [t]).report = ⟨[], [], [t], []⟩) ∧
      (sys.filter (matches_target t) ≠ [] →
        (∀ p ∈ sys.filter (matches_target t), p.killOk = true) →
        (kill_processes sys [t]).report = ⟨[t], [], [], []⟩) ∧
      (sys.filter (matches_target t) ≠ [] →
        (∀ p ∈ sys.filter (matches_target t), p.killOk = false) →
        (kill_processes sys [t]).report = ⟨[], [t], [], []⟩) ∧
      ((∃ p ∈ sys.filter (matches_target t), p.killOk = true) →
        (∃ p ∈ sys.filter (matches_target t), p.killOk = false) →
        (kill_processes sys [t]).report =
          ⟨[t ++ " (partial)"], [t ++ " (partial)"], [], []⟩) ∧
      (∀ ns, t ∈ ns →
        t ∈ (kill_processes sys ns).report.killed ∨
          (t ++ " (partial)") ∈ (kill_processes sys ns).report.killed ∨
          t ∈ (kill_processes sys ns).report.failed ∨
          t ∈ (kill_processes sys ns).report.not_found) ∧
      (∀ ns, kill_processes sys (t :: ns) =
        (target_outcome sys t).append (kill_processes sys ns)) := by
  refine ⟨?_, ?_, ?_, ?_, fun ns hns => appears_in_report sys ns t h hns,
    fun ns => kill_processes_cons sys t ns⟩ <;>
    rw [kill_processes_singleton, target_outcome_of_unprotected sys t h]
  · intro hms
    simp [target_report, hms]
  · intro hne hall
    have hk : (sys.filter (matches_target t)).any (fun p => p.killOk) = true := by
      rcases List.exists_mem_of_ne_nil _ hne with ⟨p, hp⟩
      exact List.any_eq_true.mpr ⟨p, hp, hall p hp⟩
    have hf : (sys.filter (matches_target t)).any (fun p => !p.killOk) = false := by
      rw [Bool.eq_false_iff]
      intro hc
      rcases List.any_eq_true.mp hc with ⟨p, hp, hpk⟩
      rw [hall p hp] at hpk
      simp at hpk
    simp [target_report, hk, hf]
  · intro hne hall
    have hk : (sys.filter (matches_target t)).any (fun p => p.killOk) = false := by
      rw [Bool.eq_false_iff]
      intro hc
      rcases List.any_eq_true.mp hc with ⟨p, hp, hpk⟩
      rw [hall p hp] at hpk
      cases hpk
    have hf : (sys.filter (matches_target t)).any (fun p => !p.killOk) = true := by
      rcases List.exists_mem_of_ne_nil _ hne with ⟨p, hp⟩
      refine List.any_eq_true.mpr ⟨p, hp, ?_⟩
      rw [hall p hp]
      rfl
    have hfound : (sys.filter (matches_target t)).isEmpty = false := by
      cases hms : sys.filter (matches_target t) with
      | nil => exact absurd hms hne
      | cons p ps => rfl
    simp [target_report, hk, hf, hfound]
  · rintro ⟨p, hp, hpk⟩ ⟨q, hq, hqk⟩
    have hk : (sys.filter (matches_target t)).any (fun p => p.killOk) = true :=
      List.any_eq_true.mpr ⟨p, hp, hpk⟩
    have hf : (sys.filter (matches_target t)).any (fun p => !p.killOk) = true :=
      List.any_eq_true.mpr ⟨q, hq, by rw [hqk]; rfl⟩
    simp [target_report, hk, hf]

/-- Witness for C3 at a concrete mixed run: two running `notepad` instances,
one of which resists the kill, with target `"notepad.exe"`. -/
theorem kill_report_covers_every_target_witness :
    (kill_processes [⟨7, "Notepad.EXE", true⟩, ⟨8, "notepad", false⟩]
        ["notepad.exe"]).report =
      ⟨["notepad.exe (partial)"], ["notepad.exe (partial)"], [], []⟩ := by
  have h := kill_report_covers_every_target
    [⟨7, "Notepad.EXE", true⟩, ⟨8, "notepad", false⟩] "notepad.exe" (by decide)
  exact h.2.2.2.1
    ⟨⟨7, "Notepad.EXE", true⟩, by decide, rfl⟩
    ⟨⟨8, "notepad", false⟩, by decide, rfl⟩

/-- C2. The blocklist is bypassed by omitting the `.exe` suffix:
calling `kill_processes` with target `"csrss"` while a process named
`"csrss.exe"` is running skips the blocklist entirely (nothing in
`blocklist_skipped`), attempts the kill on pid 1, and reports the target
as killed. -/
theorem csrss_without_suffix_bypasses_blocklist :
    (kill_processes [⟨1, "csrss.exe", true⟩] ["csrss"]).report.blocklist_skipped = [] ∧
      (kill_processes [⟨1, "csrss.exe", true⟩] ["csrss"]).kill_attempts = [("csrss", 1)] ∧
      (kill_processes [⟨1, "csrss.exe", true⟩] ["csrss"]).report.killed = ["csrss"] := by
  decide

lemma str_list_map_str (xs : List String) :
    str_list (xs.map Json.str) = some xs := by
  induction xs with
  | nil => rfl
  | cons x xs ih => simp [str_list, as_str, ih]

lemma decode_encode_profile (p : Profile) :
    decode_profile (encode_profile p) = some p := by
  cases p with
  | mk name ptk cip cx cy ov =>
    cases cip <;>
      simp [decode_profile, encode_profile, get_field, List.lookup, as_str,
        as_int, as_bool, as_str_list, decode_opt_str, str_list_map_str]

lemma profile_list_map (ps : List Profile) :
    profile_list (ps.map encode_profile) = some ps := by
  induction ps with
  | nil => rfl
  | cons p ps ih => simp [profile_list, decode_encode_profile, ih]

/-- C4. Round trip of the profile store: saving any list of profiles into
any directory of any disk state and loading from that directory returns
exactly the original list — same length, same order, every field of every
profile preserved. -/
theorem save_load_round_trip (profiles : List Profile) (data_dir : String)
    (fs : List (String × Json)) :
    load_profiles (save_profiles profiles data_dir fs) data_dir =
      .ok profiles := by
  simp [load_profiles, save_profiles, fs_read, fs_write, List.lookup,
    decode_profiles, encode_profiles, profile_list_map]

/-- Counterexample to C5 as stated: a profile whose name has exactly 50
characters (each the two-byte character e-acute), no crosshair image and
offsets 0 is rejected by `validate`, because the code measures
`name.len()` in UTF-8 bytes (here 100), not characters. -/
theorem validate_rejects_fifty_char_name :
    (create_profile fifty_acute_name).crosshair_image_path = none ∧
      (create_profile fifty_acute_name).name.length = 50 ∧
      (create_profile fifty_acute_name).crosshair_x_offset = 0 ∧
      (create_profile fifty_acute_name).crosshair_y_offset = 0 ∧
      except_ok (validate [] (create_profile fifty_acute_name)) = false := by
  exact ⟨rfl, by decide, rfl, rfl, rfl⟩

/-- C5 (amended: name length measured in UTF-8 bytes, as `String::len`
does).  For a profile with no crosshair image path, `validate` succeeds
exactly when the name is 1–50 bytes long and both offsets lie in
[-500, 500]; in particular it errors at byte length 0 or above 50 or at
offsets outside the range, and accepts the boundary values. -/
theorem validate_no_image_iff (fs : List String) (p : Profile)
    (h : p.crosshair_image_path = none) :
    validate fs p = .ok () ↔
      (1 ≤ p.name.utf8ByteSize ∧ p.name.utf8ByteSize ≤ 50 ∧
        -500 ≤ p.crosshair_x_offset ∧ p.crosshair_x_offset ≤ 500 ∧
        -500 ≤ p.crosshair_y_offset ∧ p.crosshair_y_offset ≤ 500) := by
  simp only [validate, h, check_offsets]
  constructor
  · intro hok
    split_ifs at hok with h1 h2 h3
    omega
  · intro hc
    split_ifs with h1 h2 h3
    · exact absurd h1 (by omega)
    · exact absurd h2 (by omega)
    · exact absurd h3 (by omega)
    · rfl

/-- Witness for C5 (amended) at the boundary profile: name of byte
length 1 with offsets -500 and 500. -/
theorem validate_no_image_iff_witness :
    validate [] ⟨"a", [], none, -500, 500, true⟩ = .ok () :=
  (validate_no_image_iff [] ⟨"a", [], none, -500, 500, true⟩ rfl).mpr
    (by decide)

/-- C6. For a profile whose crosshair image path is set: `validate` errors
whenever the file does not exist on disk, and returns `Ok` whenever the
file exists and carries the recognized image extension (`png`, the one
extension the code accepts, per the spec's "must be a PNG file") while
name and offsets are otherwise valid. -/
theorem validate_image_path_checks (fs : List String) (p : Profile)
    (path : String) (h : p.crosshair_image_path = some path) :
    (fs.contains path = false → except_ok (validate fs p) = false) ∧
      (fs.contains path = true → path_extension path = some "png" →
        1 ≤ p.name.utf8ByteSize → p.name.utf8ByteSize ≤ 50 →
        -500 ≤ p.crosshair_x_offset → p.crosshair_x_offset ≤ 500 →
        -500 ≤ p.crosshair_y_offset → p.crosshair_y_offset ≤ 500 →
        validate fs p = .ok ()) := by
  constructor
  · intro hex
    simp only [validate, h, hex, except_ok]
    split_ifs <;> rfl
  · intro hc hpng hb1 hb2 hx1 hx2 hy1 hy2
    simp only [validate, h, hc, hpng, check_offsets]
    rw [if_neg (by omega)]
    rw [if_neg (by simp), if_neg (by simp)]
    rw [if_neg (by omega), if_neg (by omega)]

/-- Witness for C6: a missing file is rejected, an existing `.png` file
with valid name and offsets is accepted. -/
theorem validate_image_path_checks_witness :
    except_ok (validate [] ⟨"a", [], some "c.png", 0, 0, true⟩) = false ∧
      validate ["c.png"] ⟨"a", [], some "c.png", 0, 0, true⟩ = .ok () := by
  refine ⟨(validate_image_path_checks [] _ "c.png" rfl).1 (by decide),
    (validate_image_path_checks ["c.png"] _ "c.png" rfl).2 (by decide)
      (by decide) (by decide) (by decide) (by decide) (by decide) (by decide)
      (by decide)⟩

lemma unique_loop_false_iff (nl : String) (ex : Option Nat)
    (ps : List Profile) (k : Nat) :
    unique_loop nl ex ps k = false ↔
      ∃ j, ∃ hj : j < ps.length, ex ≠ some (k + j) ∧
        to_lowercase (ps.get ⟨j, hj⟩).name = nl := by
  induction ps generalizing k with
  | nil => simp [unique_loop]
  | cons p ps ih =>
    by_cases hex : ex = some k
    · have hstep : unique_loop nl ex (p :: ps) k = unique_loop nl ex ps (k + 1) := by
        simp [unique_loop, hex]
      rw [hstep, ih]
      constructor
      · rintro ⟨j, hj, hne, hl⟩
        refine ⟨j + 1, by simpa using Nat.succ_lt_succ hj, ?_, hl⟩
        rw [show k + (j + 1) = (k + 1) + j by omega]
        exact hne
      · rintro ⟨j, hj, hne, hl⟩
        cases j with
        | zero => exact absurd (by simpa using hex) (by simpa using hne)
        | succ j =>
          refine ⟨j, Nat.lt_of_succ_lt_succ (by simpa using hj), ?_, hl⟩
          rw [show (k + 1) + j = k + (j + 1) by omega]
          exact hne
    · by_cases hm : to_lowercase p.name = nl
      · have hstep : unique_loop nl ex (p :: ps) k = false := by
          simp [unique_loop, hex, hm]
        rw [hstep]
        constructor
        · intro _
          exact ⟨0, by simp, by simpa using hex, by simpa using hm⟩
        · intro _
          rfl
      · have hstep : unique_loop nl ex (p :: ps) k = unique_loop nl ex ps (k + 1) := by
          simp [unique_loop, hex, hm]
        rw [hstep, ih]
        constructor
        · rintro ⟨j, hj, hne, hl⟩
          refine ⟨j + 1, by simpa using Nat.succ_lt_succ hj, ?_, hl⟩
          rw [show k + (j + 1) = (k + 1) + j by omega]
          exact hne
        · rintro ⟨j, hj, hne, hl⟩
          cases j with
          | zero => exact absurd (by simpa using hl) hm
          | succ j =>
            refine ⟨j, Nat.lt_of_succ_lt_succ (by simpa using hj), ?_, hl⟩
            rw [show (k + 1) + j = k + (j + 1) by omega]
            exact hne

/-- C10. `is_profile_name_unique` returns `false` exactly when some
profile at an index other than `exclude_index` has the queried name up to
case; with profiles "Profile 1" and "Profile 2", querying "profile 1"
with no exclusion returns `false`, and querying "Profile 1" excluding
index 0 returns `true`. -/
theorem profile_name_unique_spec :
    (∀ (profiles : List Profile) (name : String) (ex : Option Nat),
      is_profile_name_unique profiles name ex = false ↔
        ∃ i, ∃ hi : i < profiles.length, ex ≠ some i ∧
          to_lowercase (profiles.get ⟨i, hi⟩).name = to_lowercase name) ∧
      is_profile_name_unique
        [create_profile "Profile 1", create_profile "Profile 2"]
        "profile 1" none = false ∧
      is_profile_name_unique
        [create_profile "Profile 1", create_profile "Profile 2"]
        "Profile 1" (some 0) = true := by
  refine ⟨fun profiles name ex => ?_, by decide, by decide⟩
  rw [is_profile_name_unique, unique_loop_false_iff]
  simp

/-- C7. `load_crosshair_image` accepts exactly 100x100 images (returning
the ARGB-converted pixel data) and fails on every other dimension pair
with an error message carrying the actual width and height; in
particular a 64x64 image is rejected with actual dimensions 64x64.  On
failure the result is an `error`, so no overlay data is produced. -/
theorem crosshair_image_dimension_check (img : Image) :
    (img.width = 100 ∧ img.height = 100 →
      load_crosshair_image img =
        .ok (img.pixels.map argb_of_rgba, 100, 100)) ∧
      (¬(img.width = 100 ∧ img.height = 100) →
        load_crosshair_image img =
          .error ("Crosshair image must be exactly 100x100 pixels (got " ++
            toString img.width ++ "x" ++ toString img.height ++ ")")) ∧
      load_crosshair_image ⟨64, 64, []⟩ =
        .error "Crosshair image must be exactly 100x100 pixels (got 64x64)" := by
  refine ⟨?_, ?_, rfl⟩
  · rintro ⟨h1, h2⟩
    simp [load_crosshair_image, h1, h2]
  · intro hne
    simp only [load_crosshair_image]
    rw [if_pos (by omega)]

/-- Witness for C7: a 100x100 single-listed-pixel image is accepted with
its data converted, and the 64x64 image is rejected. -/
theorem crosshair_image_dimension_check_witness :
    load_crosshair_image ⟨100, 100, [(1, 2, 3, 4)]⟩ =
        .ok ((Image.mk 100 100 [(1, 2, 3, 4)]).pixels.map argb_of_rgba,
          100, 100) ∧
      load_crosshair_image ⟨64, 64, []⟩ =
        .error "Crosshair image must be exactly 100x100 pixels (got 64x64)" :=
  ⟨(crosshair_image_dimension_check ⟨100, 100, [(1, 2, 3, 4)]⟩).1 ⟨rfl, rfl⟩,
    (crosshair_image_dimension_check ⟨100, 100, [(1, 2, 3, 4)]⟩).2.2⟩

lemma blit_dest_spec (cx cy : Int) (width height x y d : Nat)
    (h : blit_dest cx cy width height x y = some d) :
    0 ≤ cx + x ∧ cx + x < (width : Int) ∧ 0 ≤ cy + y ∧
      cy + y < (height : Int) ∧
      (cy + y).toNat * width + (cx + x).toNat = d := by
  simp only [blit_dest] at h
  split at h
  · next hc => exact ⟨hc.1, hc.2.1, hc.2.2.1, hc.2.2.2, by simpa using h⟩
  · cases h

lemma blit_dest_some (cx cy : Int) (width height x y : Nat)
    (h1 : 0 ≤ cx + x) (h2 : cx + x < (width : Int))
    (h3 : 0 ≤ cy + y) (h4 : cy + y < (height : Int)) :
    blit_dest cx cy width height x y =
      some ((cy + y).toNat * width + (cx + x).toNat) := by
  simp only [blit_dest]
  rw [if_pos ⟨h1, h2, h3, h4⟩]

lemma blit_pixel_ne (cd : List Nat) (cw : Nat) (cx cy : Int)
    (width height : Nat) (buf : Nat → Nat) (x y d : Nat)
    (h : blit_dest cx cy width height x y ≠ some d) :
    blit_pixel cd cw cx cy width height buf x y d = buf d := by
  simp only [blit_pixel]
  cases hbd : blit_dest cx cy width height x y with
  | none => rfl
  | some e =>
    show (if e < width * height ∧ y * cw + x < cd.length then
        Function.update buf e (cd.getD (y * cw + x) 0) else buf) d = buf d
    split_ifs
    · exact Function.update_noteq (by rintro rfl; exact h hbd) _ _
    · rfl

lemma foldl_blit_frame (cd : List Nat) (cw : Nat) (cx cy : Int)
    (width height : Nat) (L : List (Nat × Nat)) (buf : Nat → Nat) (d : Nat)
    (h : ∀ p ∈ L, blit_dest cx cy width height p.1 p.2 ≠ some d) :
    L.foldl (fun b p => blit_pixel cd cw cx cy width height b p.1 p.2)
        buf d = buf d := by
  induction L generalizing buf with
  | nil => rfl
  | cons p L ih =>
    rw [List.foldl_cons, ih _ (fun q hq => h q (List.mem_cons_of_mem _ hq))]
    exact blit_pixel_ne cd cw cx cy width height buf p.1 p.2 d
      (h p (List.mem_cons_self _ _))

lemma index_decomp (a b c e width : Nat) (hb : b < width) (he : e < width)
    (h : a * width + b = c * width + e) : a = c ∧ b = e := by
  have hmod1 : (a * width + b) % width = b := by
    rw [Nat.mul_comm, Nat.mul_add_mod, Nat.mod_eq_of_lt hb]
  have hmod2 : (c * width + e) % width = e := by
    rw [Nat.mul_comm, Nat.mul_add_mod, Nat.mod_eq_of_lt he]
  rw [h] at hmod1
  have hbe : b = e := hmod1.symm.trans hmod2
  refine ⟨?_, hbe⟩
  rw [hbe] at h
  exact Nat.eq_of_mul_eq_mul_right (by omega) (Nat.add_right_cancel h)

lemma blit_pairs_nodup (cw ch : Nat) : (blit_pairs cw ch).Nodup := by
  rw [blit_pairs, List.nodup_flatMap]
  constructor
  · intro y _
    exact (List.nodup_range cw).map
      (fun a b hab => by simpa using congrArg Prod.fst hab)
  · refine (List.pairwise_lt_range ch).imp ?_
    intro a b hab z hza hzb
    rcases List.mem_map.mp hza with ⟨x1, _, rfl⟩
    rcases List.mem_map.mp hzb with ⟨x2, _, heq⟩
    have : b = a := by simpa using congrArg Prod.snd heq
    omega

lemma mem_blit_pairs {cw ch x y : Nat} :
    (x, y) ∈ blit_pairs cw ch ↔ x < cw ∧ y < ch := by
  simp only [blit_pairs, List.mem_flatMap, List.mem_map, List.mem_range]
  constructor
  · rintro ⟨b, hb, a, ha, heq⟩
    have hax : a = x := by simpa using congrArg Prod.fst heq
    have hby : b = y := by simpa using congrArg Prod.snd heq
    exact ⟨hax ▸ ha, hby ▸ hb⟩
  · rintro ⟨hx, hy⟩
    exact ⟨y, hy, x, hx, rfl⟩

lemma blit_dest_inj (cx cy : Int) (width height x y z w d : Nat)
    (h1 : blit_dest cx cy width height x y = some d)
    (h2 : blit_dest cx cy width height z w = some d) :
    x = z ∧ y = w := by
  obtain ⟨a1, a2, a3, a4, a5⟩ := blit_dest_spec _ _ _ _ _ _ _ h1
  obtain ⟨b1, b2, b3, b4, b5⟩ := blit_dest_spec _ _ _ _ _ _ _ h2
  have hd : (cy + y).toNat * width + (cx + x).toNat =
      (cy + w).toNat * width + (cx + z).toNat := by rw [a5, b5]
  have h1w : (cx + x).toNat < width := by omega
  have h2w : (cx + z).toNat < width := by omega
  obtain ⟨he1, he2⟩ := index_decomp _ _ _ _ _ h1w h2w hd
  constructor <;> omega

/-- C8. For a positive-sized surface, `render` presents a buffer (never an
error) in which every pixel of the `width * height` buffer is fully
transparent `0` except where the crosshair lands: the crosshair's
top-left corner is placed at `(crosshair_x, crosshair_y)` (centered via
truncating division, plus the offsets), each source pixel is copied
unblended to its destination coordinate when that coordinate lies within
bounds, and out-of-bounds destinations are silently skipped. -/
theorem render_blits_centered_crosshair (width height : Nat) (cd : List Nat)
    (cw ch : Nat) (xo yo : Int) (hw : 0 < width) (hh : 0 < height)
    (hlen : cd.length = cw * ch) :
    render width height cd cw ch xo yo ≠ none ∧
      ∀ dx dy, dx < width → dy < height →
        (render width height cd cw ch xo yo).getD (fun _ => 0)
            (dy * width + dx) =
          if 0 ≤ (dx : Int) - crosshair_x width cw xo ∧
              (dx : Int) - crosshair_x width cw xo < (cw : Int) ∧
              0 ≤ (dy : Int) - crosshair_y height ch yo ∧
              (dy : Int) - crosshair_y height ch yo < (ch : Int) then
            cd.getD (((dy : Int) - crosshair_y height ch yo).toNat * cw +
              ((dx : Int) - crosshair_x width cw xo).toNat) 0
          else 0 := by
  have hrender : render width height cd cw ch xo yo =
      some ((blit_pairs cw ch).foldl
        (fun buf p => blit_pixel cd cw (crosshair_x width cw xo)
          (crosshair_y height ch yo) width height buf p.1 p.2)
        (fun _ => 0)) := by
    simp only [render]
    rw [if_neg (by omega)]
  refine ⟨by simp [hrender], ?_⟩
  intro dx dy hdx hdy
  rw [hrender, Option.getD_some]
  set cx := crosshair_x width cw xo with hcx
  set cy := crosshair_y height ch yo with hcy
  by_cases hcov : 0 ≤ (dx : Int) - cx ∧ (dx : Int) - cx < (cw : Int) ∧
      0 ≤ (dy : Int) - cy ∧ (dy : Int) - cy < (ch : Int)
  · rw [if_pos hcov]
    obtain ⟨hc1, hc2, hc3, hc4⟩ := hcov
    set x0 := ((dx : Int) - cx).toNat with hx0
    set y0 := ((dy : Int) - cy).toNat with hy0
    have hxx : cx + (x0 : Int) = (dx : Int) := by omega
    have hyy : cy + (y0 : Int) = (dy : Int) := by omega
    have hx0cw : x0 < cw := by omega
    have hy0ch : y0 < ch := by omega
    have hdest : blit_dest cx cy width height x0 y0 =
        some (dy * width + dx) := by
      rw [blit_dest_some cx cy width height x0 y0 (by omega) (by omega)
        (by omega) (by omega), hxx, hyy]
      simp
    obtain ⟨L1, L2, hsplit⟩ :=
      List.append_of_mem (mem_blit_pairs.mpr ⟨hx0cw, hy0ch⟩)
    have hnotin : (x0, y0) ∉ L2 := by
      have hnd := blit_pairs_nodup cw ch
      rw [hsplit] at hnd
      exact (List.nodup_cons.mp
        (hnd.sublist (List.sublist_append_right L1 _))).1
    have hfr : ∀ p ∈ L2, blit_dest cx cy width height p.1 p.2 ≠
        some (dy * width + dx) := by
      rintro ⟨qx, qy⟩ hq hqd
      obtain ⟨hq1, hq2⟩ := blit_dest_inj cx cy width height qx qy x0 y0
        (dy * width + dx) hqd hdest
      exact hnotin (by rw [← hq1, ← hq2]; exact hq)
    have hb1 : dy * width + dx < width * height := by
      calc dy * width + dx < dy * width + width := by omega
        _ = (dy + 1) * width := by ring
        _ ≤ height * width := Nat.mul_le_mul_right _ (by omega)
        _ = width * height := Nat.mul_comm _ _
    have hb2 : y0 * cw + x0 < cd.length := by
      rw [hlen]
      calc y0 * cw + x0 < y0 * cw + cw := by omega
        _ = (y0 + 1) * cw := by ring
        _ ≤ ch * cw := Nat.mul_le_mul_right _ (by omega)
        _ = cw * ch := Nat.mul_comm _ _
    rw [hsplit, List.foldl_append, List.foldl_cons,
      foldl_blit_frame cd cw cx cy width height L2 _ _ hfr]
    simp only [blit_pixel, hdest]
    rw [if_pos ⟨hb1, hb2⟩]
    exact Function.update_same _ _ _
  · rw [if_neg hcov]
    have hfr : ∀ p ∈ blit_pairs cw ch,
        blit_dest cx cy width height p.1 p.2 ≠ some (dy * width + dx) := by
      rintro ⟨qx, qy⟩ hq hqd
      obtain ⟨hq1, hq2⟩ := mem_blit_pairs.mp hq
      obtain ⟨a1, a2, a3, a4, a5⟩ := blit_dest_spec _ _ _ _ _ _ _ hqd
      have h1w : (cx + qx).toNat < width := by omega
      obtain ⟨he1, he2⟩ := index_decomp _ _ _ _ _ h1w hdx a5
      exact hcov ⟨by omega, by omega, by omega, by omega⟩
    rw [foldl_blit_frame cd cw cx cy width height _ _ _ hfr]

/-- Witness for C8 on a 4x4 surface with a 2x2 crosshair at offset (0,0):
the surface renders, and the buffer pixel at row 1, column 1 (the
crosshair's top-left landing spot) carries the first crosshair pixel. -/
theorem render_blits_centered_crosshair_witness :
    render 4 4 [10, 20, 30, 40] 2 2 0 0 ≠ none ∧
      (render 4 4 [10, 20, 30, 40] 2 2 0 0).getD (fun _ => 0)
        (1 * 4 + 1) = 10 := by
  have h := render_blits_centered_crosshair 4 4 [10, 20, 30, 40] 2 2 0 0
    (by decide) (by decide) (by decide)
  refine ⟨h.1, ?_⟩
  rw [h.2 1 1 (by decide) (by decide)]
  decide

lemma tray_run_ticks (fo : Bool) (t1 : Nat) (ts : List Nat)
    (hticks : ∀ t ∈ ts, t - t1 < 500) (es : List TrayEvent) :
    tray_run ⟨some t1, true, fo⟩ (ts.map TrayEvent.tick ++ es) =
      tray_run ⟨some t1, true, fo⟩ es := by
  induction ts with
  | nil => rfl
  | cons t ts ih =>
    have hstep : tray_step ⟨some t1, true, fo⟩ (.tick t) =
        (⟨some t1, true, fo⟩, []) := by
      have hlt : ¬500 ≤ t - t1 := Nat.not_le.mpr (hticks t (by simp))
      simp [tray_step, hlt]
    simp only [List.map_cons, List.cons_append, tray_run, hstep,
      List.append_eq, List.nil_append]
    rw [ih (fun u hu => hticks u (by simp [hu]))]

/-- C9. From an idle state (no recorded click), a left-click-up at `t1`
followed by any number of loop iterations before `t1 + 500` and a second
left-click-up at `t2` with `t2 - t1 < 500` emits exactly one
`OpenSettings` and no flyout action, clearing the pending-single-click
state; whereas a left-click-up at `t1` followed by a loop iteration at
`t2` with `t2 - t1 ≥ 500` and no second click emits exactly one flyout
toggle (show if closed, hide if open) and no `OpenSettings`. -/
theorem tray_double_click_vs_single_click (s : TrayState) (t1 t2 : Nat)
    (ts : List Nat) (hidle : s.last_click_time = none)
    (hticks : ∀ t ∈ ts, t - t1 < 500) :
    (t2 - t1 < 500 →
      tray_run s
          ([TrayEvent.clickUp t1] ++ ts.map TrayEvent.tick ++
            [TrayEvent.clickUp t2]) =
        (⟨none, false, s.flyout_open⟩, [TrayAction.openSettings])) ∧
      (500 ≤ t2 - t1 →
        tray_run s
            ([TrayEvent.clickUp t1] ++ ts.map TrayEvent.tick ++
              [TrayEvent.tick t2]) =
          if s.flyout_open then
            (⟨some t1, false, false⟩, [TrayAction.hideFlyout])
          else
            (⟨some t1, false, true⟩, [TrayAction.showFlyout])) := by
  have h1 : tray_step s (.clickUp t1) =
      (⟨some t1, true, s.flyout_open⟩, []) := by
    cases s with
    | mk lc pend fo => cases hidle; simp [tray_step]
  constructor
  · intro hdc
    have h2 : tray_step ⟨some t1, true, s.flyout_open⟩ (.clickUp t2) =
        (⟨none, false, s.flyout_open⟩, [TrayAction.openSettings]) := by
      simp [tray_step, hdc]
    simp only [List.singleton_append, List.cons_append, tray_run, h1,
      List.append_eq, List.nil_append]
    rw [tray_run_ticks s.flyout_open t1 ts hticks [TrayEvent.clickUp t2]]
    simp [tray_run, h2]
  · intro hsc
    have h2 : tray_step ⟨some t1, true, s.flyout_open⟩ (.tick t2) =
        if s.flyout_open then
          (⟨some t1, false, false⟩, [TrayAction.hideFlyout])
        else
          (⟨some t1, false, true⟩, [TrayAction.showFlyout]) := by
      by_cases hfo : s.flyout_open <;> simp [tray_step, hsc, hfo]
    simp only [List.singleton_append, List.cons_append, tray_run, h1,
      List.append_eq, List.nil_append]
    rw [tray_run_ticks s.flyout_open t1 ts hticks [TrayEvent.tick t2]]
    by_cases hfo : s.flyout_open = true
    · rw [hfo] at h2 ⊢
      simp only [if_pos rfl] at h2 ⊢
      simp [tray_run, h2]
    · have hfo2 : s.flyout_open = false := by simpa using hfo
      rw [hfo2] at h2 ⊢
      simp only [Bool.false_eq_true, if_false] at h2 ⊢
      simp [tray_run, h2]

/-- Witness for C9: from the idle closed state, clicks at 0 ms and 200 ms
yield exactly one `OpenSettings`; a click at 0 ms with the timer firing
at 800 ms yields exactly one `showFlyout`. -/
theorem tray_double_click_vs_single_click_witness :
    tray_run ⟨none, false, false⟩ [TrayEvent.clickUp 0, TrayEvent.clickUp 200] =
        (⟨none, false, false⟩, [TrayAction.openSettings]) ∧
      tray_run ⟨none, false, false⟩ [TrayEvent.clickUp 0, TrayEvent.tick 800] =
        (⟨some 0, false, true⟩, [TrayAction.showFlyout]) := by
  constructor
  · exact (tray_double_click_vs_single_click ⟨none, false, false⟩ 0 200 []
      rfl (by simp)).1 (by decide)
  · exact (tray_double_click_vs_single_click ⟨none, false, false⟩ 0 800 []
      rfl (by simp)).2 (by decide)

end GamingOptimizer
